import Mathlib

/-!
Verification development for the save-bank migration tool (`migrate.py`).

The program copies a fixed manifest of bank files from an account's
old-publisher directory to its new-publisher directory, making a numbered
backup of any pre-existing target first, and then rewrites the embedded
signature of each copied file.

Shallow embedding conventions:
* File contents are `List Char` (Python reads the files as text).
* Paths are structured (`FPath`): a location (old- or new-publisher bank
  directory) together with a bank-file name, which is either a plain
  manifest name or a numbered backup name `<name>.bak<n>`.  Distinct
  constructors model the distinct concrete path strings.
* The filesystem is an association list from paths to contents; a write
  prepends, and reads take the first (most recent) binding.
* Python's unbounded `while True` backup probe is modelled with explicit
  fuel `fs.length + 1`; the development proves this fuel always suffices,
  which is exactly the termination argument for the source loop.
* The external `sc2bank` library (parse / sign) is an external collaborator
  and is passed in as deterministic function parameters.
* The only per-file failure modelled is a missing source file
  (`shutil.copy2` raising); the orchestrator's `except: pass` is modelled
  by the per-file step returning the partial state reached before the
  failure.
-/

/-- Configuration constant `OLD_PUBLISHER_ID` (migrate.py line 22). -/
def OLD_PUBLISHER_ID : String := "5-S2-1-11831282"

/-- Configuration constant `NEW_PUBLISHER_ID` (migrate.py line 23). -/
def NEW_PUBLISHER_ID : String := "5-S2-1-10786818"

/-- The fixed manifest `BANK_FILES` (migrate.py lines 25-31). -/
def BANK_FILES : List String :=
  ["CrashRPGMaximumBank.SC2Bank",
   "HSF.SC2Bank",
   "PBRPG.SC2Bank",
   "CDRPGBank.SC2Bank",
   "NeoStarBank.SC2Bank"]

/-! ## Character-list models of the Python string operations used by
`resign_bank_file`: substring test (`in`) and `str.replace`. -/

/-- Boolean test that `p` is a prefix of `l` (character-wise). -/
def charsPrefix : List Char → List Char → Bool
  | [], _ => true
  | _ :: _, [] => false
  | a :: as, b :: bs => a == b && charsPrefix as bs

/-- Python's substring test `pat in s`: some position of `l` starts with
`pat`. -/
def pyContains (pat : List Char) : List Char → Bool
  | [] => pat.isEmpty
  | c :: cs => charsPrefix pat (c :: cs) || pyContains pat cs

/-- Fuel-indexed worker for Python's `str.replace`: scan left to right,
replacing each leftmost non-overlapping occurrence of `pat` by `rep`.
Each step consumes at least one character, so fuel `l.length` suffices. -/
def replAux (pat rep : List Char) : Nat → List Char → List Char
  | _, [] => []
  | 0, l => l
  | fuel + 1, c :: cs =>
    if !pat.isEmpty && charsPrefix pat (c :: cs) then
      rep ++ replAux pat rep fuel (cs.drop (pat.length - 1))
    else
      c :: replAux pat rep fuel cs

/-- Python's `str.replace pat rep` on character lists (all occurrences,
leftmost, non-overlapping).  For empty `pat` it returns the input
unchanged; the source never calls `replace` with an empty pattern. -/
def pyReplace (pat rep l : List Char) : List Char :=
  replAux pat rep l.length l

/-- Fuel-indexed worker splitting `l` at each leftmost non-overlapping
occurrence of `pat` (the same scan as `replAux`). -/
def splitAux (pat : List Char) : Nat → List Char → List (List Char)
  | _, [] => [[]]
  | 0, l => [l]
  | fuel + 1, c :: cs =>
    if !pat.isEmpty && charsPrefix pat (c :: cs) then
      [] :: splitAux pat fuel (cs.drop (pat.length - 1))
    else
      match splitAux pat fuel cs with
      | [] => [[c]]
      | h :: t => (c :: h) :: t

/-- Split `l` at every occurrence of `pat`; rejoining the pieces with
`pat` recovers `l`, and rejoining with another separator is exactly
`pyReplace`. -/
def pySplit (pat l : List Char) : List (List Char) :=
  splitAux pat l.length l

/-- Number of (leftmost, non-overlapping) occurrences of `pat` in `l`. -/
def countOcc (pat l : List Char) : Nat :=
  (pySplit pat l).length - 1

/-! ## Filesystem model -/

/-- The two bank directories of one account: `Banks/<OLD_PUBLISHER_ID>`
and `Banks/<NEW_PUBLISHER_ID>` (migrate.py lines 49-50). -/
inductive Loc where
  | old : Loc
  | new : Loc
deriving DecidableEq

/-- A file name inside a bank directory: either a plain bank-file name or
a numbered backup name `<name>.bak<n>` (migrate.py line 105). -/
inductive BankName where
  | plain (name : String) : BankName
  | bak (name : String) (n : Nat) : BankName
deriving DecidableEq

/-- A concrete path: which bank directory, and which file name in it. -/
structure FPath where
  loc : Loc
  base : BankName
deriving DecidableEq

/-- Filesystem state: association list from paths to contents. -/
abbrev FS := List (FPath × List Char)

/-- Read a file: first binding wins (a later write shadows older ones). -/
def readFS (fs : FS) (p : FPath) : Option (List Char) :=
  (fs.find? (fun e => decide (e.1 = p))).map (fun e => e.2)

/-- Write a file (create or overwrite). -/
def writeFS (fs : FS) (p : FPath) (c : List Char) : FS :=
  (p, c) :: fs

/-- `Path.exists()` of the model. -/
def existsFS (fs : FS) (p : FPath) : Bool :=
  (readFS fs p).isSome

/-- The source path `old_bank_path / bank_file` (migrate.py line 97). -/
def srcPath (f : String) : FPath := ⟨Loc.old, BankName.plain f⟩

/-- The target path `new_bank_path / bank_file` (migrate.py line 98). -/
def tgtPath (f : String) : FPath := ⟨Loc.new, BankName.plain f⟩

/-- The backup path `target.parent / (target.name + ".bak" + n)`
(migrate.py line 105). -/
def bakPath (f : String) (n : Nat) : FPath := ⟨Loc.new, BankName.bak f n⟩

/-! ## Backup probing (migrate.py lines 103-110) -/

/-- Fuel-indexed model of the `while True` probe loop: starting at `n`,
return the first index whose backup name does not exist.  The loop in the
source has no bound; fuel `fs.length + 1` is proved sufficient below,
which is the termination argument for the source loop. -/
def probeBak (fs : FS) (f : String) : Nat → Nat → Option Nat
  | 0, _ => none
  | fuel + 1, n =>
    if existsFS fs (bakPath f n) then probeBak fs f fuel (n + 1) else some n

/-- The backup number chosen for file `f` in state `fs` (probe starts
at 1, as in the source).  The default 0 is never taken. -/
def findBak (fs : FS) (f : String) : Nat :=
  (probeBak fs f (fs.length + 1) 1).getD 0

/-- Backup step (migrate.py lines 102-110): if the target exists, copy it
to the first free backup name and count one backup; otherwise do
nothing.  Returns the new state and the `backup_count` increment. -/
def backupPhase (fs : FS) (f : String) : FS × Nat :=
  match readFS fs (tgtPath f) with
  | none => (fs, 0)
  | some tc => (writeFS fs (bakPath f (findBak fs f)) tc, 1)

/-- The backup-safe copy step (migrate.py lines 100-113): backup any
pre-existing target, then copy source over target.  `none` models the
caught exception when the source cannot be read; `some (fs, b)` is
success with `b` backups made. -/
def copy_with_backup (fs : FS) (f : String) : Option (FS × Nat) :=
  let fsb := backupPhase fs f
  match readFS fsb.1 (srcPath f) with
  | none => none
  | some c => some (writeFS fsb.1 (tgtPath f) c, fsb.2)

/-! ## Signature resigning (migrate.py lines 131-157) -/

/-- The closing root-element tag searched for by `resign_bank_file`
(migrate.py line 146). -/
def closingTag : String := "</Bank>"

/-- The replacement text used when no old signature was found
(migrate.py line 147): the new signature element followed by the closing
tag, substituted for each occurrence of the closing tag. -/
def signatureTag (newSig : String) : String :=
  "    <Signature value=\"" ++ newSig ++ "\"/>\n" ++ closingTag

/-- The inserted signature element alone (everything `signatureTag` adds
in front of the closing tag). -/
def signatureIns (newSig : String) : String :=
  "    <Signature value=\"" ++ newSig ++ "\"/>\n"

/-- Fallback branch of the replacement policy (migrate.py lines 146-150):
insert the new signature element in front of (each occurrence of) the
closing tag, or fail if the closing tag is absent. -/
def insertBeforeClose (newSig : String) (content : List Char) : Option (List Char) :=
  if pyContains closingTag.data content then
    some (pyReplace closingTag.data (signatureTag newSig).data content)
  else
    none

/-- The replacement policy of `resign_bank_file` (migrate.py lines
143-150).  `oldSig` is the signature extracted by `sc2bank.parse`
(`none` models Python `None`); the guard models Python's
`if old_signature and old_signature in content`, where an empty string is
falsy. -/
def resignNewContent (oldSig : Option String) (newSig : String)
    (content : List Char) : Option (List Char) :=
  match oldSig with
  | some s =>
    if !s.isEmpty && pyContains s.data content then
      some (pyReplace s.data newSig.data content)
    else
      insertBeforeClose newSig content
  | none => insertBeforeClose newSig content

/-- `Path.stem`: the file name without its last extension
(migrate.py line 135). -/
def stem (s : String) : String :=
  let parts := s.splitOn "."
  if parts.length ≤ 1 then s else String.intercalate "." parts.dropLast

/-- The stem of the file a path denotes. -/
def pathStem : FPath → String
  | ⟨_, BankName.plain s⟩ => stem s
  | ⟨_, BankName.bak s n⟩ => stem (s ++ ".bak" ++ toString n)

/-- Model of `sc2bank.parse`: from the file contents, `none` when parsing
raises, otherwise the optional embedded old signature. -/
abbrev ParseSig := List Char → Option (Option String)

/-- Model of `sc2bank.sign author_id user_id bank_name bank`: a
deterministic function of the ownership identifiers, the bank name and
the file contents. -/
abbrev SignFn := String → String → String → List Char → String

/-- `MigrationWorker.resign_bank_file` (migrate.py lines 131-157).
Reads the file, parses it, computes the new signature, applies the
replacement policy and writes the result back.  Every internal failure
(missing file, parse failure, no signature location) is swallowed by the
`try`/`except` and reported as `false` with the state unchanged; the
function is total, so no exception escapes this boundary. -/
def resign_bank_file (ps : ParseSig) (sf : SignFn) (fs : FS) (p : FPath)
    (user : String) : FS × Bool :=
  match readFS fs p with
  | none => (fs, false)
  | some content =>
    match ps content with
    | none => (fs, false)
    | some oldSig =>
      let newSig := sf NEW_PUBLISHER_ID user (pathStem p) content
      match resignNewContent oldSig newSig content with
      | none => (fs, false)
      | some nc => (writeFS fs p nc, true)

/-! ## Orchestrator (migrate.py lines 88-129) -/

/-- One iteration of the migration loop (migrate.py lines 96-120) for a
selected file `f`: backup a pre-existing target, copy source over target,
resign the copy ignoring its boolean result.  The surrounding
`except Exception: pass` is modelled by returning the state reached
before the failing copy.  Returns `(state, migrated increment,
backup increment)`. -/
def processFile (ps : ParseSig) (sf : SignFn) (user : String) (fs : FS)
    (f : String) : FS × Nat × Nat :=
  let fsb := backupPhase fs f
  match readFS fsb.1 (srcPath f) with
  | none => (fsb.1, 0, fsb.2)
  | some c =>
    let fs2 := writeFS fsb.1 (tgtPath f) c
    ((resign_bank_file ps sf fs2 (tgtPath f) user).1, 1, fsb.2)

/-- The per-file loop of `MigrationWorker.run`, accumulating
`migrated_count` and `backup_count`.  Returns `(state, migrated_count,
backup_count)`. -/
def runFiles (ps : ParseSig) (sf : SignFn) (user : String) :
    FS → List String → FS × Nat × Nat
  | fs, [] => (fs, 0, 0)
  | fs, f :: rest =>
    let pr := processFile ps sf user fs f
    let rr := runFiles ps sf user pr.1 rest
    (rr.1, pr.2.1 + rr.2.1, pr.2.2 + rr.2.2)

/-- The batch outcome emitted by `MigrationWorker.run` (migrate.py lines
122-126): the success flag of the `finished` signal and the two counts
carried by the message. -/
structure BatchResult where
  success : Bool
  migrated : Nat
  backups : Nat
deriving DecidableEq

/-- `MigrationWorker.run` (migrate.py lines 88-129): process every
selected file and emit `finished(True, message with the counts)`.  In the
model no orchestrator-level step can fail, so the flag is always true. -/
def run (ps : ParseSig) (sf : SignFn) (user : String) (fs : FS)
    (files : List String) : FS × BatchResult :=
  let r := runFiles ps sf user fs files
  (r.1, ⟨true, r.2.1, r.2.2⟩)

/-! ## Candidate evaluation (migrate.py lines 60-76) -/

/-- `Account.get_migratable_files` (migrate.py lines 60-67): the manifest
files present in the old bank directory, in manifest order;
`oldDirExists` models the `old_bank_path.exists()` early return. -/
def get_migratable_files (oldDirExists : Bool) (fs : FS) : List String :=
  if oldDirExists then BANK_FILES.filter (fun f => existsFS fs (srcPath f))
  else []

/-- `Account.get_existing_target_files` (migrate.py lines 69-76): the
manifest files already present in the new bank directory (the
collisions), in manifest order. -/
def get_existing_target_files (newDirExists : Bool) (fs : FS) : List String :=
  if newDirExists then BANK_FILES.filter (fun f => existsFS fs (tgtPath f))
  else []

/-! ## Basic filesystem lemmas -/

theorem readFS_write (fs : FS) (p : FPath) (c : List Char) (q : FPath) :
    readFS (writeFS fs p c) q = if q = p then some c else readFS fs q := by
  by_cases h : q = p
  · subst h
    simp [readFS, writeFS]
  · rw [if_neg h]
    unfold readFS writeFS
    rw [List.find?_cons_of_neg]
    simp [Ne.symm h]

theorem readFS_write_self (fs : FS) (p : FPath) (c : List Char) :
    readFS (writeFS fs p c) p = some c := by
  simp [readFS_write]

theorem readFS_write_other (fs : FS) (p : FPath) (c : List Char) (q : FPath)
    (h : q ≠ p) : readFS (writeFS fs p c) q = readFS fs q := by
  simp [readFS_write, h]

theorem mem_keys_of_existsFS (fs : FS) (p : FPath)
    (h : existsFS fs p = true) : p ∈ fs.map Prod.fst := by
  unfold existsFS readFS at h
  rcases hf : fs.find? (fun e => decide (e.1 = p)) with _ | e
  · rw [hf] at h; simp at h
  · have hmem := List.mem_of_find?_eq_some hf
    have hp : e.1 = p := by
      have := List.find?_some hf
      simpa using this
    exact hp ▸ List.mem_map_of_mem Prod.fst hmem

/-! ## Characterization of the string scanning primitives -/

theorem charsPrefix_iff (p : List Char) : ∀ l : List Char,
    (charsPrefix p l = true ↔ ∃ t, l = p ++ t) := by
  induction p with
  | nil => intro l; simp [charsPrefix]
  | cons a as ih =>
    intro l
    cases l with
    | nil => simp [charsPrefix]
    | cons b bs =>
      simp only [charsPrefix, Bool.and_eq_true, beq_iff_eq, ih]
      constructor
      · rintro ⟨rfl, t, rfl⟩
        exact ⟨t, rfl⟩
      · rintro ⟨t, ht⟩
        rw [List.cons_append] at ht
        injection ht with h1 h2
        exact ⟨h1.symm, t, h2⟩

theorem charsPrefix_decomp (pat : List Char) (c : Char) (cs : List Char)
    (hne : pat ≠ []) (h : charsPrefix pat (c :: cs) = true) :
    pat ++ cs.drop (pat.length - 1) = c :: cs := by
  obtain ⟨t, ht⟩ := (charsPrefix_iff pat (c :: cs)).1 h
  cases pat with
  | nil => exact absurd rfl hne
  | cons p0 ps =>
    rw [List.cons_append] at ht
    injection ht with h1 h2
    subst h1
    subst h2
    simp [List.drop_left]

theorem splitAux_zero (pat : List Char) (c : Char) (cs : List Char) :
    splitAux pat 0 (c :: cs) = [c :: cs] := rfl

theorem splitAux_nil (pat : List Char) (fuel : Nat) :
    splitAux pat fuel [] = [[]] := by
  cases fuel <;> rfl

theorem splitAux_cons (pat : List Char) (fuel : Nat) (c : Char) (cs : List Char) :
    splitAux pat (fuel + 1) (c :: cs) =
      if !pat.isEmpty && charsPrefix pat (c :: cs) then
        [] :: splitAux pat fuel (cs.drop (pat.length - 1))
      else
        match splitAux pat fuel cs with
        | [] => [[c]]
        | h :: t => (c :: h) :: t := rfl

theorem replAux_zero (pat rep : List Char) (c : Char) (cs : List Char) :
    replAux pat rep 0 (c :: cs) = c :: cs := rfl

theorem replAux_nil (pat rep : List Char) (fuel : Nat) :
    replAux pat rep fuel [] = [] := by
  cases fuel <;> rfl

theorem replAux_cons (pat rep : List Char) (fuel : Nat) (c : Char) (cs : List Char) :
    replAux pat rep (fuel + 1) (c :: cs) =
      if !pat.isEmpty && charsPrefix pat (c :: cs) then
        rep ++ replAux pat rep fuel (cs.drop (pat.length - 1))
      else
        c :: replAux pat rep fuel cs := rfl

theorem splitAux_ne_nil (pat : List Char) (fuel : Nat) (l : List Char) :
    splitAux pat fuel l ≠ [] := by
  cases fuel with
  | zero => cases l <;> simp [splitAux_nil, splitAux_zero]
  | succ fuel =>
    cases l with
    | nil => simp [splitAux_nil]
    | cons c cs =>
      rw [splitAux_cons]
      by_cases hcond : (!pat.isEmpty && charsPrefix pat (c :: cs)) = true
      · rw [if_pos hcond]; simp
      · rw [if_neg hcond]
        rcases splitAux pat fuel cs with _ | ⟨h0, t0⟩ <;> simp

theorem intercalate_cons_cons {α : Type} (sep a b : List α) (t : List (List α)) :
    List.intercalate sep (a :: b :: t) = a ++ sep ++ List.intercalate sep (b :: t) := by
  simp [List.intercalate, List.intersperse]

theorem intercalate_singleton {α : Type} (sep x : List α) :
    List.intercalate sep [x] = x := by
  simp [List.intercalate, List.intersperse]

theorem intercalate_splitAux (pat : List Char) : ∀ (fuel : Nat) (l : List Char),
    l.length ≤ fuel → List.intercalate pat (splitAux pat fuel l) = l := by
  intro fuel
  induction fuel with
  | zero =>
    intro l hl
    cases l with
    | nil => simp [splitAux_nil, intercalate_singleton]
    | cons c cs => simp at hl
  | succ fuel ih =>
    intro l hl
    cases l with
    | nil => simp [splitAux_nil, intercalate_singleton]
    | cons c cs =>
      rw [splitAux_cons]
      by_cases hcond : (!pat.isEmpty && charsPrefix pat (c :: cs)) = true
      · rw [if_pos hcond]
        simp only [Bool.and_eq_true] at hcond
        obtain ⟨h1, hpre⟩ := hcond
        have hne : pat ≠ [] := by
          cases pat with
          | nil => simp at h1
          | cons _ _ => simp
        have hlen : (cs.drop (pat.length - 1)).length ≤ fuel := by
          have := List.length_drop (pat.length - 1) cs
          have hcs : cs.length ≤ fuel := by simpa using hl
          omega
        rcases hS : splitAux pat fuel (cs.drop (pat.length - 1)) with _ | ⟨s0, S⟩
        · exact absurd hS (splitAux_ne_nil pat fuel _)
        · rw [intercalate_cons_cons]
          have hI := ih (cs.drop (pat.length - 1)) hlen
          rw [hS] at hI
          rw [hI]
          simpa using charsPrefix_decomp pat c cs hne hpre
      · rw [if_neg hcond]
        rcases hS : splitAux pat fuel cs with _ | ⟨h0, t0⟩
        · exact absurd hS (splitAux_ne_nil pat fuel _)
        · have hcs : cs.length ≤ fuel := by simpa using hl
          have hI := ih cs hcs
          rw [hS] at hI
          cases t0 with
          | nil =>
            rw [intercalate_singleton] at hI
            simp [intercalate_singleton, hI]
          | cons t1 ts =>
            rw [intercalate_cons_cons] at hI ⊢
            simp [hI.symm]

theorem replAux_eq_intercalate (pat rep : List Char) : ∀ (fuel : Nat) (l : List Char),
    l.length ≤ fuel →
    replAux pat rep fuel l = List.intercalate rep (splitAux pat fuel l) := by
  intro fuel
  induction fuel with
  | zero =>
    intro l hl
    cases l with
    | nil => simp [replAux_nil, splitAux_nil, intercalate_singleton]
    | cons c cs => simp at hl
  | succ fuel ih =>
    intro l hl
    cases l with
    | nil => simp [replAux_nil, splitAux_nil, intercalate_singleton]
    | cons c cs =>
      rw [replAux_cons, splitAux_cons]
      by_cases hcond : (!pat.isEmpty && charsPrefix pat (c :: cs)) = true
      · rw [if_pos hcond, if_pos hcond]
        have hlen : (cs.drop (pat.length - 1)).length ≤ fuel := by
          have := List.length_drop (pat.length - 1) cs
          have hcs : cs.length ≤ fuel := by simpa using hl
          omega
        rcases hS : splitAux pat fuel (cs.drop (pat.length - 1)) with _ | ⟨s0, S⟩
        · exact absurd hS (splitAux_ne_nil pat fuel _)
        · rw [intercalate_cons_cons]
          have hI := ih (cs.drop (pat.length - 1)) hlen
          rw [hS] at hI
          simp [hI]
      · rw [if_neg hcond, if_neg hcond]
        rcases hS : splitAux pat fuel cs with _ | ⟨h0, t0⟩
        · exact absurd hS (splitAux_ne_nil pat fuel _)
        · have hcs : cs.length ≤ fuel := by simpa using hl
          have hI := ih cs hcs
          rw [hS] at hI
          cases t0 with
          | nil =>
            rw [intercalate_singleton] at hI
            simp [intercalate_singleton, hI]
          | cons t1 ts =>
            rw [intercalate_cons_cons] at hI ⊢
            simp [hI]

theorem splitAux_length_iff (pat : List Char) (hne : pat ≠ []) :
    ∀ (fuel : Nat) (l : List Char), l.length ≤ fuel →
    (2 ≤ (splitAux pat fuel l).length ↔ pyContains pat l = true) := by
  intro fuel
  induction fuel with
  | zero =>
    intro l hl
    cases l with
    | nil =>
      rw [splitAux_nil]
      simp [pyContains, List.isEmpty_iff, hne]
    | cons c cs => simp at hl
  | succ fuel ih =>
    intro l hl
    cases l with
    | nil =>
      rw [splitAux_nil]
      simp [pyContains, List.isEmpty_iff, hne]
    | cons c cs =>
      rw [splitAux_cons]
      have hempty : (!pat.isEmpty) = true := by
        simp [List.isEmpty_iff, hne]
      by_cases hpre : charsPrefix pat (c :: cs) = true
      · rw [if_pos (by simp [hempty, hpre])]
        simp only [pyContains, hpre, Bool.true_or, iff_true, List.length_cons]
        have := splitAux_ne_nil pat fuel (cs.drop (pat.length - 1))
        rcases hS : splitAux pat fuel (cs.drop (pat.length - 1)) with _ | ⟨s0, S⟩
        · exact absurd hS this
        · simp
      · rw [if_neg (by simp [hpre])]
        have hcs : cs.length ≤ fuel := by simpa using hl
        have hI := ih cs hcs
        rcases hS : splitAux pat fuel cs with _ | ⟨h0, t0⟩
        · exact absurd hS (splitAux_ne_nil pat fuel _)
        · rw [hS] at hI
          simp only [pyContains, hpre, Bool.false_or]
          simpa using hI

theorem intercalate_pySplit (pat l : List Char) :
    List.intercalate pat (pySplit pat l) = l :=
  intercalate_splitAux pat l.length l le_rfl

theorem pyReplace_eq_intercalate (pat rep l : List Char) :
    pyReplace pat rep l = List.intercalate rep (pySplit pat l) :=
  replAux_eq_intercalate pat rep l.length l le_rfl

theorem pySplit_length_iff (pat l : List Char) (hne : pat ≠ []) :
    2 ≤ (pySplit pat l).length ↔ pyContains pat l = true :=
  splitAux_length_iff pat hne l.length l le_rfl

theorem pySplit_ne_nil (pat l : List Char) : pySplit pat l ≠ [] :=
  splitAux_ne_nil pat l.length l

theorem pyReplace_of_not_contains (pat rep l : List Char) (hne : pat ≠ [])
    (h : pyContains pat l = false) : pyReplace pat rep l = l := by
  rcases hS : pySplit pat l with _ | ⟨p0, ps⟩
  · exact absurd hS (pySplit_ne_nil pat l)
  · cases ps with
    | nil =>
      have h1 : List.intercalate pat (pySplit pat l) = l := intercalate_pySplit pat l
      rw [hS, intercalate_singleton] at h1
      rw [pyReplace_eq_intercalate, hS, intercalate_singleton, h1]
    | cons p1 ps' =>
      have h2 : 2 ≤ (pySplit pat l).length := by simp [hS]
      rw [pySplit_length_iff pat l hne] at h2
      rw [h2] at h
      exact absurd h (by simp)

theorem pySplit_pair (pat l p0 p1 : List Char) (h : pySplit pat l = [p0, p1]) :
    l = p0 ++ pat ++ p1 ∧ ∀ rep, pyReplace pat rep l = p0 ++ rep ++ p1 := by
  constructor
  · have h1 := intercalate_pySplit pat l
    rw [h, intercalate_cons_cons, intercalate_singleton] at h1
    exact h1.symm
  · intro rep
    rw [pyReplace_eq_intercalate, h, intercalate_cons_cons, intercalate_singleton]

/-! ## Probe-loop correctness -/

theorem probeBak_succ (fs : FS) (f : String) (fuel n : Nat) :
    probeBak fs f (fuel + 1) n =
      if existsFS fs (bakPath f n) then probeBak fs f fuel (n + 1) else some n := rfl

theorem probeBak_spec (fs : FS) (f : String) : ∀ (fuel n : Nat),
    (∃ k, n ≤ k ∧ k < n + fuel ∧ existsFS fs (bakPath f k) = false) →
    ∃ m, probeBak fs f fuel n = some m ∧ existsFS fs (bakPath f m) = false ∧
      n ≤ m ∧ ∀ j, n ≤ j → j < m → existsFS fs (bakPath f j) = true := by
  intro fuel
  induction fuel with
  | zero =>
    intro n hk
    obtain ⟨k, hk1, hk2, _⟩ := hk
    omega
  | succ fuel ih =>
    intro n hk
    rw [probeBak_succ]
    by_cases hocc : existsFS fs (bakPath f n) = true
    · rw [if_pos hocc]
      obtain ⟨k, hk1, hk2, hk3⟩ := hk
      have hkn : k ≠ n := by
        intro he
        rw [he, hocc] at hk3
        exact absurd hk3 (by simp)
      obtain ⟨m, hm1, hm2, hm3, hm4⟩ := ih (n + 1) ⟨k, by omega, by omega, hk3⟩
      refine ⟨m, hm1, hm2, by omega, ?_⟩
      intro j hj1 hj2
      rcases Nat.eq_or_lt_of_le hj1 with he | hlt
      · rw [← he]; exact hocc
      · exact hm4 j hlt hj2
    · rw [if_neg hocc]
      refine ⟨n, rfl, by simpa using hocc, le_rfl, ?_⟩
      intro j hj1 hj2
      omega

theorem exists_free_bak (fs : FS) (f : String) :
    ∃ k, 1 ≤ k ∧ k < 1 + (fs.length + 1) ∧ existsFS fs (bakPath f k) = false := by
  by_contra hcon
  push_neg at hcon
  have hall : ∀ k, 1 ≤ k → k < fs.length + 2 → existsFS fs (bakPath f k) = true := by
    intro k h1 h2
    have := hcon k h1 (by omega)
    simpa using this
  have hinj : Function.Injective (fun i : Nat => bakPath f (i + 1)) := by
    intro a b hab
    simpa [bakPath] using hab
  have hnodup : ((List.range (fs.length + 1)).map
      (fun i => bakPath f (i + 1))).Nodup :=
    (List.nodup_range (fs.length + 1)).map hinj
  have hsub : ((List.range (fs.length + 1)).map (fun i => bakPath f (i + 1))) ⊆
      fs.map Prod.fst := by
    intro p hp
    obtain ⟨i, hi, rfl⟩ := List.mem_map.mp hp
    have hir := List.mem_range.mp hi
    exact mem_keys_of_existsFS fs _ (hall (i + 1) (by omega) (by omega))
  have hle := (List.subperm_of_subset hnodup hsub).length_le
  rw [List.length_map, List.length_range, List.length_map] at hle
  omega

theorem findBak_spec (fs : FS) (f : String) :
    probeBak fs f (fs.length + 1) 1 = some (findBak fs f) ∧
    1 ≤ findBak fs f ∧
    existsFS fs (bakPath f (findBak fs f)) = false ∧
    ∀ j, 1 ≤ j → j < findBak fs f → existsFS fs (bakPath f j) = true := by
  obtain ⟨k, hk1, hk2, hk3⟩ := exists_free_bak fs f
  obtain ⟨m, hm1, hm2, hm3, hm4⟩ :=
    probeBak_spec fs f (fs.length + 1) 1 ⟨k, hk1, hk2, hk3⟩
  have hfb : findBak fs f = m := by
    unfold findBak
    rw [hm1]
    rfl
  rw [hfb]
  exact ⟨hm1, hm3, hm2, hm4⟩

theorem findBak_congr (fs1 fs2 : FS) (f : String)
    (h : ∀ n, existsFS fs1 (bakPath f n) = existsFS fs2 (bakPath f n)) :
    findBak fs1 f = findBak fs2 f := by
  obtain ⟨_, h11, h12, h13⟩ := findBak_spec fs1 f
  obtain ⟨_, h21, h22, h23⟩ := findBak_spec fs2 f
  rcases Nat.lt_trichotomy (findBak fs1 f) (findBak fs2 f) with hlt | heq | hgt
  · have := h23 (findBak fs1 f) h11 hlt
    rw [← h] at this
    rw [h12] at this
    exact absurd this (by simp)
  · exact heq
  · have := h13 (findBak fs2 f) h21 hgt
    rw [h] at this
    rw [h22] at this
    exact absurd this (by simp)

/-! ## Which paths each step writes -/

theorem resign_read_other (ps : ParseSig) (sf : SignFn) (fs : FS) (p : FPath)
    (user : String) (q : FPath) (h : q ≠ p) :
    readFS (resign_bank_file ps sf fs p user).1 q = readFS fs q := by
  unfold resign_bank_file
  cases hr : readFS fs p with
  | none => rfl
  | some content =>
    cases hp : ps content with
    | none => simp [hp]
    | some oldSig =>
      cases hn : resignNewContent oldSig
          (sf NEW_PUBLISHER_ID user (pathStem p) content) content with
      | none => simp [hp, hn]
      | some nc => simp [hp, hn, readFS_write_other fs p nc q h]

theorem resign_false_unchanged (ps : ParseSig) (sf : SignFn) (fs : FS)
    (p : FPath) (user : String)
    (h : (resign_bank_file ps sf fs p user).2 = false) :
    (resign_bank_file ps sf fs p user).1 = fs := by
  unfold resign_bank_file at h ⊢
  cases hr : readFS fs p with
  | none => rfl
  | some content =>
    cases hp : ps content with
    | none => simp [hp]
    | some oldSig =>
      cases hn : resignNewContent oldSig
          (sf NEW_PUBLISHER_ID user (pathStem p) content) content with
      | none => simp [hp, hn]
      | some nc =>
        rw [hr] at h
        simp [hp, hn] at h

theorem backupPhase_read_other (fs : FS) (f : String) (q : FPath)
    (h : q ≠ bakPath f (findBak fs f)) :
    readFS (backupPhase fs f).1 q = readFS fs q := by
  unfold backupPhase
  cases ht : readFS fs (tgtPath f) with
  | none => rfl
  | some tc => simp [readFS_write_other fs _ tc q h]

theorem bakPath_ne_srcPath (f g : String) (n : Nat) : srcPath g ≠ bakPath f n := by
  simp [srcPath, bakPath]

theorem bakPath_ne_tgtPath (f g : String) (n : Nat) : tgtPath g ≠ bakPath f n := by
  simp [tgtPath, bakPath]

theorem srcPath_ne_tgtPath (f g : String) : srcPath g ≠ tgtPath f := by
  simp [srcPath, tgtPath]

theorem processFile_read_old (ps : ParseSig) (sf : SignFn) (user : String)
    (fs : FS) (f : String) (q : FPath) (h : q.loc = Loc.old) :
    readFS (processFile ps sf user fs f).1 q = readFS fs q := by
  have hq1 : q ≠ bakPath f (findBak fs f) := by
    intro he; rw [he] at h; simp [bakPath] at h
  have hq2 : q ≠ tgtPath f := by
    intro he; rw [he] at h; simp [tgtPath] at h
  simp only [processFile]
  cases hs : readFS (backupPhase fs f).1 (srcPath f) with
  | none => exact backupPhase_read_other fs f q hq1
  | some c =>
    show readFS (resign_bank_file ps sf
      (writeFS (backupPhase fs f).1 (tgtPath f) c) (tgtPath f) user).1 q =
      readFS fs q
    rw [resign_read_other ps sf
      (writeFS (backupPhase fs f).1 (tgtPath f) c) (tgtPath f) user q hq2]
    rw [readFS_write_other (backupPhase fs f).1 (tgtPath f) c q hq2]
    exact backupPhase_read_other fs f q hq1

theorem processFile_migrated (ps : ParseSig) (sf : SignFn) (user : String)
    (fs : FS) (f : String) :
    (processFile ps sf user fs f).2.1 =
      if existsFS fs (srcPath f) = true then 1 else 0 := by
  have hsrc : readFS (backupPhase fs f).1 (srcPath f) = readFS fs (srcPath f) :=
    backupPhase_read_other fs f (srcPath f) (bakPath_ne_srcPath f f _)
  simp only [processFile]
  rw [hsrc]
  cases hs : readFS fs (srcPath f) with
  | none => simp [existsFS, hs]
  | some c => simp [existsFS, hs]

theorem runFiles_migrated (ps : ParseSig) (sf : SignFn) (user : String) :
    ∀ (files : List String) (fs : FS),
    (runFiles ps sf user fs files).2.1 =
      (files.filter (fun f => existsFS fs (srcPath f))).length := by
  intro files
  induction files with
  | nil => intro fs; rfl
  | cons f rest ih =>
    intro fs
    have hstep : (runFiles ps sf user fs (f :: rest)).2.1 =
        (processFile ps sf user fs f).2.1 +
        (runFiles ps sf user (processFile ps sf user fs f).1 rest).2.1 := rfl
    rw [hstep, processFile_migrated, ih]
    have hpred : (fun g => existsFS (processFile ps sf user fs f).1 (srcPath g)) =
        (fun g => existsFS fs (srcPath g)) := by
      funext g
      unfold existsFS
      rw [processFile_read_old ps sf user fs f (srcPath g) rfl]
    rw [hpred]
    rw [List.filter_cons]
    by_cases hf : existsFS fs (srcPath f) = true
    · rw [if_pos hf, if_pos hf]
      simp [Nat.add_comm]
    · rw [if_neg hf, if_neg (by simpa using hf)]
      simp

/-! ## Existence-equivalence simulation: the batch counts depend only on
which paths exist, never on file contents or on the resigner's
behaviour. -/

/-- Two states are existence-equivalent when the same paths exist. -/
def Req (fs1 fs2 : FS) : Prop :=
  ∀ p, existsFS fs1 p = existsFS fs2 p

theorem req_refl (fs : FS) : Req fs fs := fun _ => rfl

theorem req_symm {fs1 fs2 : FS} (h : Req fs1 fs2) : Req fs2 fs1 :=
  fun p => (h p).symm

theorem req_trans {fs1 fs2 fs3 : FS} (h1 : Req fs1 fs2) (h2 : Req fs2 fs3) :
    Req fs1 fs3 := fun p => (h1 p).trans (h2 p)

theorem existsFS_write (fs : FS) (p : FPath) (c : List Char) (q : FPath) :
    existsFS (writeFS fs p c) q = if q = p then true else existsFS fs q := by
  unfold existsFS
  rw [readFS_write]
  by_cases h : q = p <;> simp [h]

theorem req_write_write {fs1 fs2 : FS} (h : Req fs1 fs2) (p : FPath)
    (c1 c2 : List Char) : Req (writeFS fs1 p c1) (writeFS fs2 p c2) := by
  intro q
  rw [existsFS_write, existsFS_write]
  by_cases hq : q = p <;> simp [hq, h q]

theorem req_write_self {fs : FS} {p : FPath} (h : existsFS fs p = true)
    (c : List Char) : Req (writeFS fs p c) fs := by
  intro q
  rw [existsFS_write]
  by_cases hq : q = p
  · subst hq; simp [h]
  · simp [hq]

theorem resign_req (ps : ParseSig) (sf : SignFn) (fs : FS) (p : FPath)
    (user : String) : Req (resign_bank_file ps sf fs p user).1 fs := by
  unfold resign_bank_file
  cases hr : readFS fs p with
  | none => exact req_refl fs
  | some content =>
    cases hp : ps content with
    | none => simp [hp]; exact req_refl fs
    | some oldSig =>
      cases hn : resignNewContent oldSig
          (sf NEW_PUBLISHER_ID user (pathStem p) content) content with
      | none => simp [hp, hn]; exact req_refl fs
      | some nc =>
        simp only [hp, hn]
        exact req_write_self (by simp [existsFS, hr]) nc

theorem backupPhase_req {fs1 fs2 : FS} (h : Req fs1 fs2) (f : String) :
    (backupPhase fs1 f).2 = (backupPhase fs2 f).2 ∧
    Req (backupPhase fs1 f).1 (backupPhase fs2 f).1 := by
  have hfb : findBak fs1 f = findBak fs2 f :=
    findBak_congr fs1 fs2 f (fun n => h (bakPath f n))
  have htgt : (readFS fs1 (tgtPath f)).isSome = (readFS fs2 (tgtPath f)).isSome :=
    h (tgtPath f)
  unfold backupPhase
  cases h1 : readFS fs1 (tgtPath f) with
  | none =>
    cases h2 : readFS fs2 (tgtPath f) with
    | none => exact ⟨rfl, h⟩
    | some tc2 => rw [h1, h2] at htgt; simp at htgt
  | some tc1 =>
    cases h2 : readFS fs2 (tgtPath f) with
    | none => rw [h1, h2] at htgt; simp at htgt
    | some tc2 =>
      refine ⟨rfl, ?_⟩
      show Req (writeFS fs1 (bakPath f (findBak fs1 f)) tc1)
        (writeFS fs2 (bakPath f (findBak fs2 f)) tc2)
      rw [hfb]
      exact req_write_write h _ tc1 tc2

theorem processFile_req (ps1 ps2 : ParseSig) (sf1 sf2 : SignFn) (user : String)
    {fs1 fs2 : FS} (h : Req fs1 fs2) (f : String) :
    (processFile ps1 sf1 user fs1 f).2 = (processFile ps2 sf2 user fs2 f).2 ∧
    Req (processFile ps1 sf1 user fs1 f).1 (processFile ps2 sf2 user fs2 f).1 := by
  obtain ⟨hb, hreq⟩ := backupPhase_req h f
  have hsrc : (readFS (backupPhase fs1 f).1 (srcPath f)).isSome =
      (readFS (backupPhase fs2 f).1 (srcPath f)).isSome := hreq (srcPath f)
  simp only [processFile]
  cases h1 : readFS (backupPhase fs1 f).1 (srcPath f) with
  | none =>
    cases h2 : readFS (backupPhase fs2 f).1 (srcPath f) with
    | none => exact ⟨by rw [hb], hreq⟩
    | some c2 => rw [h1, h2] at hsrc; simp at hsrc
  | some c1 =>
    cases h2 : readFS (backupPhase fs2 f).1 (srcPath f) with
    | none => rw [h1, h2] at hsrc; simp at hsrc
    | some c2 =>
      refine ⟨by rw [hb], ?_⟩
      show Req (resign_bank_file ps1 sf1
          (writeFS (backupPhase fs1 f).1 (tgtPath f) c1) (tgtPath f) user).1
        (resign_bank_file ps2 sf2
          (writeFS (backupPhase fs2 f).1 (tgtPath f) c2) (tgtPath f) user).1
      have ra := resign_req ps1 sf1
        (writeFS (backupPhase fs1 f).1 (tgtPath f) c1) (tgtPath f) user
      have rb := resign_req ps2 sf2
        (writeFS (backupPhase fs2 f).1 (tgtPath f) c2) (tgtPath f) user
      have rw2 : Req (writeFS (backupPhase fs1 f).1 (tgtPath f) c1)
          (writeFS (backupPhase fs2 f).1 (tgtPath f) c2) :=
        req_write_write hreq _ c1 c2
      exact req_trans ra (req_trans rw2 (req_symm rb))

theorem runFiles_req (ps1 ps2 : ParseSig) (sf1 sf2 : SignFn) (user : String) :
    ∀ (files : List String) {fs1 fs2 : FS}, Req fs1 fs2 →
    (runFiles ps1 sf1 user fs1 files).2 = (runFiles ps2 sf2 user fs2 files).2 := by
  intro files
  induction files with
  | nil => intro fs1 fs2 _; rfl
  | cons f rest ih =>
    intro fs1 fs2 h
    obtain ⟨hc, hreq⟩ := processFile_req ps1 ps2 sf1 sf2 user h f
    have h1 : runFiles ps1 sf1 user fs1 (f :: rest) =
        (let pr := processFile ps1 sf1 user fs1 f
         let rr := runFiles ps1 sf1 user pr.1 rest
         (rr.1, pr.2.1 + rr.2.1, pr.2.2 + rr.2.2)) := rfl
    have h2 : runFiles ps2 sf2 user fs2 (f :: rest) =
        (let pr := processFile ps2 sf2 user fs2 f
         let rr := runFiles ps2 sf2 user pr.1 rest
         (rr.1, pr.2.1 + rr.2.1, pr.2.2 + rr.2.2)) := rfl
    rw [h1, h2]
    simp only []
    rw [hc, ih hreq]

theorem data_ne_nil_of_not_isEmpty (s : String) (h : s.isEmpty = false) :
    s.data ≠ [] := by
  intro hd
  have hs : s = "" := by
    apply String.ext
    rw [hd]
  have ht : s.isEmpty = true := (String.isEmpty_iff s).mpr hs
  rw [ht] at h
  exact absurd h (by simp)

/-! ## Concrete external collaborators used in closed evaluations -/

/-- A parse collaborator that always fails (models `sc2bank.parse`
raising on every file). -/
def psNone : ParseSig := fun _ => none

/-- A trivial deterministic signing collaborator. -/
def sfConst : SignFn := fun _ _ _ _ => ""

/-! ## Claims -/

/-- C7: for every account state, the candidate evaluation returns, for
both the migratable and the collision sequence, only filenames from the
fixed manifest `BANK_FILES`, each at most once, listed in manifest order
(both lists are sublists of the manifest, hence duplicate-free). -/
theorem evaluate_manifest_order (b1 b2 : Bool) (fs : FS) :
    (get_migratable_files b1 fs).Sublist BANK_FILES ∧
    (get_migratable_files b1 fs).Nodup ∧
    (get_existing_target_files b2 fs).Sublist BANK_FILES ∧
    (get_existing_target_files b2 fs).Nodup := by
  have hnd : BANK_FILES.Nodup := by decide
  have h1 : (get_migratable_files b1 fs).Sublist BANK_FILES := by
    unfold get_migratable_files
    by_cases hb : b1 = true
    · rw [if_pos hb]; exact List.filter_sublist BANK_FILES
    · rw [if_neg hb]; exact List.nil_sublist BANK_FILES
  have h2 : (get_existing_target_files b2 fs).Sublist BANK_FILES := by
    unfold get_existing_target_files
    by_cases hb : b2 = true
    · rw [if_pos hb]; exact List.filter_sublist BANK_FILES
    · rw [if_neg hb]; exact List.nil_sublist BANK_FILES
  exact ⟨h1, hnd.sublist h1, h2, hnd.sublist h2⟩

/-- C8 (amended): whenever `MigrationWorker.run` reaches its normal end,
it emits the success flag `True` regardless of how many files actually
migrated; the code has no `Completed` / `PartialFailure` distinction and
does not report failure when zero files migrated. -/
theorem run_always_success (ps : ParseSig) (sf : SignFn) (user : String)
    (fs : FS) (files : List String) :
    ((run ps sf user fs files).2).success = true := rfl

/-- C8 counterexample: a batch over an empty filesystem migrates zero
files, yet the worker still reports success (`finished(True, ...)` with
`migrated_count = 0`), contradicting the claim that the outcome is not
success when zero files migrated. -/
theorem run_zero_migrated_reports_success :
    (run psNone sfConst "u" [] ["CrashRPGMaximumBank.SC2Bank"]).2 =
      ⟨true, 0, 0⟩ := by decide

/-- C2 (amended): whenever the copy of one selected file fails, the
per-file `except Exception: pass` swallows the error and the remaining
selected files are still attempted — each selected file is counted as
migrated exactly when its own source exists, independently of other
files' failures — but no filename is recorded: the emitted batch result
carries only the success flag and the two counts. -/
theorem run_migrated_counts_each_file (ps : ParseSig) (sf : SignFn)
    (user : String) (fs : FS) (files : List String) :
    ((run ps sf user fs files).2).migrated =
      (files.filter (fun f => existsFS fs (srcPath f))).length ∧
    ((run ps sf user fs files).2).success = true :=
  ⟨runFiles_migrated ps sf user files fs, rfl⟩

/-- C2 counterexample (the spec's own partial-failure scenario): a batch
of three manifest files where the second one's source is missing, and a
batch where instead the third one's source is missing, produce exactly
the same batch result `(True, migrated 2, backups 0)` — no failed
filename is recorded anywhere in the result, so the batch result cannot
contain the list of failed filenames, and the copy error is silently
dropped. -/
theorem run_result_conflates_failures :
    (run psNone sfConst "u"
      [(srcPath "CrashRPGMaximumBank.SC2Bank", ['x']),
       (srcPath "PBRPG.SC2Bank", ['x'])]
      ["CrashRPGMaximumBank.SC2Bank", "HSF.SC2Bank", "PBRPG.SC2Bank"]).2 =
      ⟨true, 2, 0⟩ ∧
    (run psNone sfConst "u"
      [(srcPath "CrashRPGMaximumBank.SC2Bank", ['x']),
       (srcPath "HSF.SC2Bank", ['x'])]
      ["CrashRPGMaximumBank.SC2Bank", "HSF.SC2Bank", "PBRPG.SC2Bank"]).2 =
      ⟨true, 2, 0⟩ := by decide

/-- C9: the batch accounting (success flag, `migrated_count`,
`backup_count`) is completely independent of the parse and sign
collaborators, i.e. of everything `resign_bank_file` does or returns: a
file whose copy succeeds is counted as migrated whether its resign
returns true or false. -/
theorem run_counts_independent_of_resign (ps1 ps2 : ParseSig)
    (sf1 sf2 : SignFn) (user : String) (fs : FS) (files : List String) :
    (run ps1 sf1 user fs files).2 = (run ps2 sf2 user fs files).2 := by
  have h := runFiles_req ps1 ps2 sf1 sf2 user files (req_refl fs)
  simp only [run]
  rw [h]

/-- C10: `backup_count` counts every backup that was successfully
created, including the backup made for a file whose subsequent overwrite
copy then fails: when the target pre-exists but the source is missing,
processing the file adds 1 to `backup_count` and 0 to `migrated_count`
(the batch continues on the state holding the new backup), so
`backup_count` can cover files absent from `migrated_count`. -/
theorem backup_count_includes_failed_copies (ps : ParseSig) (sf : SignFn)
    (user : String) (fs : FS) (f : String) (rest : List String)
    (tc : List Char) (h1 : readFS fs (tgtPath f) = some tc)
    (h2 : readFS fs (srcPath f) = none) :
    ((run ps sf user fs (f :: rest)).2).backups =
      ((run ps sf user (writeFS fs (bakPath f (findBak fs f)) tc) rest).2).backups
        + 1 ∧
    ((run ps sf user fs (f :: rest)).2).migrated =
      ((run ps sf user (writeFS fs (bakPath f (findBak fs f)) tc) rest).2).migrated := by
  have hbp : backupPhase fs f = (writeFS fs (bakPath f (findBak fs f)) tc, 1) := by
    unfold backupPhase
    rw [h1]
  have hsrc : readFS (writeFS fs (bakPath f (findBak fs f)) tc) (srcPath f) = none := by
    rw [readFS_write_other fs _ tc _ (bakPath_ne_srcPath f f _)]
    exact h2
  have hpf : processFile ps sf user fs f =
      (writeFS fs (bakPath f (findBak fs f)) tc, 0, 1) := by
    simp only [processFile, hbp, hsrc]
  have hrun : runFiles ps sf user fs (f :: rest) =
      (let pr := processFile ps sf user fs f
       let rr := runFiles ps sf user pr.1 rest
       (rr.1, pr.2.1 + rr.2.1, pr.2.2 + rr.2.2)) := rfl
  simp only [run, hrun, hpf]
  constructor
  · simp [Nat.add_comm]
  · simp

/-- C10 witness: concrete instantiation — one selected file whose target
exists and whose source is missing yields `backup_count = 1` and
`migrated_count = 0`. -/
theorem backup_count_includes_failed_copies_witness :
    ((run psNone sfConst "u" [(tgtPath "HSF.SC2Bank", ['t'])]
        ["HSF.SC2Bank"]).2).backups =
      ((run psNone sfConst "u"
        (writeFS [(tgtPath "HSF.SC2Bank", ['t'])]
          (bakPath "HSF.SC2Bank" (findBak [(tgtPath "HSF.SC2Bank", ['t'])] "HSF.SC2Bank")) ['t'])
        []).2).backups + 1 ∧
    ((run psNone sfConst "u" [(tgtPath "HSF.SC2Bank", ['t'])]
        ["HSF.SC2Bank"]).2).migrated =
      ((run psNone sfConst "u"
        (writeFS [(tgtPath "HSF.SC2Bank", ['t'])]
          (bakPath "HSF.SC2Bank" (findBak [(tgtPath "HSF.SC2Bank", ['t'])] "HSF.SC2Bank")) ['t'])
        []).2).migrated :=
  backup_count_includes_failed_copies psNone sfConst "u"
    [(tgtPath "HSF.SC2Bank", ['t'])] "HSF.SC2Bank" [] ['t']
    (by decide) (by decide)

/-- C6 (amended): the code defines no maximum for backup probing and has
no `BackupExhaustedError`: for every (finite) filesystem state the probe
loop terminates with a found index — the fuelled probe with the proven
sufficient bound always returns `some` — and the backup-safe copy step
fails only when the source file is missing; there is no
backup-exhaustion failure mode.  Per-file failures are caught and the
batch continues (see the C2 and C10 theorems). -/
theorem probe_never_exhausts (fs : FS) (f : String) :
    (probeBak fs f (fs.length + 1) 1).isSome = true ∧
    (copy_with_backup fs f = none ↔ readFS fs (srcPath f) = none) := by
  constructor
  · rw [(findBak_spec fs f).1]
    rfl
  · have hsrc : readFS (backupPhase fs f).1 (srcPath f) = readFS fs (srcPath f) :=
      backupPhase_read_other fs f _ (bakPath_ne_srcPath f f _)
    simp only [copy_with_backup, hsrc]
    cases hs : readFS fs (srcPath f) with
    | none => simp
    | some c => simp

/-- C6 counterexample: with backups `.bak1` … `.bak5` already present,
the copy step does not fail with any backup-exhaustion error — probing
simply continues past them and the backup is created under `.bak6`.  The
same holds past any candidate maximum, by `probe_never_exhausts`. -/
theorem probe_past_five_backups_succeeds :
    copy_with_backup
      [(tgtPath "HSF.SC2Bank", ['t']),
       (bakPath "HSF.SC2Bank" 1, ['t']), (bakPath "HSF.SC2Bank" 2, ['t']),
       (bakPath "HSF.SC2Bank" 3, ['t']), (bakPath "HSF.SC2Bank" 4, ['t']),
       (bakPath "HSF.SC2Bank" 5, ['t']), (srcPath "HSF.SC2Bank", ['s'])]
      "HSF.SC2Bank" =
      some (writeFS (writeFS
        [(tgtPath "HSF.SC2Bank", ['t']),
         (bakPath "HSF.SC2Bank" 1, ['t']), (bakPath "HSF.SC2Bank" 2, ['t']),
         (bakPath "HSF.SC2Bank" 3, ['t']), (bakPath "HSF.SC2Bank" 4, ['t']),
         (bakPath "HSF.SC2Bank" 5, ['t']), (srcPath "HSF.SC2Bank", ['s'])]
        (bakPath "HSF.SC2Bank" 6) ['t']) (tgtPath "HSF.SC2Bank") ['s'], 1) := by
  decide

/-- C3: when the target exists, the backup is written to
`target + ".bak" + n` for the smallest positive `n` whose name does not
currently exist (probing from 1); in particular if `.bak1` … `.bakN`
exist and `.bak(N+1)` does not, the new backup is `.bak(N+1)`; the
chosen name was previously unoccupied and every other path is left
untouched, so no existing backup is reused or overwritten. -/
theorem backup_least_free_index (fs : FS) (f : String) (tc : List Char)
    (h : readFS fs (tgtPath f) = some tc) :
    1 ≤ findBak fs f ∧
    existsFS fs (bakPath f (findBak fs f)) = false ∧
    (∀ j, 1 ≤ j → j < findBak fs f → existsFS fs (bakPath f j) = true) ∧
    (∀ N, (∀ j, 1 ≤ j → j ≤ N → existsFS fs (bakPath f j) = true) →
      existsFS fs (bakPath f (N + 1)) = false → findBak fs f = N + 1) ∧
    backupPhase fs f = (writeFS fs (bakPath f (findBak fs f)) tc, 1) ∧
    (∀ q, q ≠ bakPath f (findBak fs f) →
      readFS (backupPhase fs f).1 q = readFS fs q) := by
  obtain ⟨hp, hge, hfree, hmin⟩ := findBak_spec fs f
  refine ⟨hge, hfree, hmin, ?_, ?_, ?_⟩
  · intro N hall hfr
    rcases Nat.lt_trichotomy (findBak fs f) (N + 1) with hlt | heq | hgt
    · have := hall (findBak fs f) hge (by omega)
      rw [hfree] at this
      exact absurd this (by simp)
    · exact heq
    · have := hmin (N + 1) (by omega) hgt
      rw [hfr] at this
      exact absurd this (by simp)
  · unfold backupPhase
    rw [h]
  · intro q hq
    exact backupPhase_read_other fs f q hq

/-- C3 witness: with the target and `.bak1` present, the next backup
index is 2 and the backup step writes exactly `.bak2`. -/
theorem backup_least_free_index_witness :
    findBak [(tgtPath "PBRPG.SC2Bank", ['t']),
             (bakPath "PBRPG.SC2Bank" 1, ['u'])] "PBRPG.SC2Bank" = 2 ∧
    backupPhase [(tgtPath "PBRPG.SC2Bank", ['t']),
                 (bakPath "PBRPG.SC2Bank" 1, ['u'])] "PBRPG.SC2Bank" =
      (writeFS [(tgtPath "PBRPG.SC2Bank", ['t']),
                (bakPath "PBRPG.SC2Bank" 1, ['u'])]
        (bakPath "PBRPG.SC2Bank" 2) ['t'], 1) := by
  have h := backup_least_free_index
    [(tgtPath "PBRPG.SC2Bank", ['t']), (bakPath "PBRPG.SC2Bank" 1, ['u'])]
    "PBRPG.SC2Bank" ['t'] (by decide)
  have h2 : findBak [(tgtPath "PBRPG.SC2Bank", ['t']),
      (bakPath "PBRPG.SC2Bank" 1, ['u'])] "PBRPG.SC2Bank" = 2 := by
    apply h.2.2.2.1 1
    · intro j hj1 hj2
      have hj : j = 1 := by omega
      rw [hj]
      decide
    · decide
  refine ⟨h2, ?_⟩
  have h3 := h.2.2.2.2.1
  rw [h2] at h3
  exact h3

/-- C1: whenever the backup-safe copy step succeeds, the target's
contents afterwards are exactly the source's contents at call time, and
if the target existed before the call, the state reached after the
backup sub-step (i.e. before the target is overwritten) already holds a
backup whose contents are the target's pre-call contents — and that
backup survives unchanged into the final state. -/
theorem copy_with_backup_correct (fs fs' : FS) (f : String) (b : Nat)
    (h : copy_with_backup fs f = some (fs', b)) :
    readFS fs' (tgtPath f) = readFS fs (srcPath f) ∧
    (∀ tc, readFS fs (tgtPath f) = some tc →
      b = 1 ∧
      backupPhase fs f = (writeFS fs (bakPath f (findBak fs f)) tc, 1) ∧
      readFS (backupPhase fs f).1 (bakPath f (findBak fs f)) = some tc ∧
      readFS (backupPhase fs f).1 (tgtPath f) = some tc ∧
      readFS fs' (bakPath f (findBak fs f)) = some tc) := by
  simp only [copy_with_backup] at h
  cases hs : readFS (backupPhase fs f).1 (srcPath f) with
  | none => rw [hs] at h; exact absurd h (by simp)
  | some c =>
    rw [hs] at h
    have h' := Option.some.inj h
    obtain ⟨hfs, hb⟩ := Prod.mk.inj h'
    have hsrc : readFS fs (srcPath f) = some c := by
      rw [← backupPhase_read_other fs f (srcPath f) (bakPath_ne_srcPath f f _)]
      exact hs
    constructor
    · rw [← hfs, readFS_write_self, hsrc]
    · intro tc htc
      have hbp : backupPhase fs f = (writeFS fs (bakPath f (findBak fs f)) tc, 1) := by
        unfold backupPhase
        rw [htc]
      have hb1 : b = 1 := by
        rw [← hb, hbp]
      have hread_bak : readFS (backupPhase fs f).1 (bakPath f (findBak fs f)) = some tc := by
        rw [hbp]
        exact readFS_write_self fs _ tc
      have hread_tgt : readFS (backupPhase fs f).1 (tgtPath f) = some tc := by
        rw [hbp]
        rw [readFS_write_other fs _ tc _ (bakPath_ne_tgtPath f f _)]
        exact htc
      refine ⟨hb1, hbp, hread_bak, hread_tgt, ?_⟩
      rw [← hfs]
      rw [readFS_write_other _ _ c _ (bakPath_ne_tgtPath f f _).symm]
      exact hread_bak

/-- C1 witness: a concrete state with both source and pre-existing
target; the copy succeeds, the final target holds the source contents,
and the backup `.bak1` holds the old target contents both right after
the backup sub-step and in the final state. -/
theorem copy_with_backup_correct_witness :
    readFS (writeFS (writeFS [(srcPath "HSF.SC2Bank", ['s']), (tgtPath "HSF.SC2Bank", ['t'])]
        (bakPath "HSF.SC2Bank" 1) ['t']) (tgtPath "HSF.SC2Bank") ['s'])
      (tgtPath "HSF.SC2Bank") =
      readFS [(srcPath "HSF.SC2Bank", ['s']), (tgtPath "HSF.SC2Bank", ['t'])]
        (srcPath "HSF.SC2Bank") ∧
    readFS (writeFS (writeFS [(srcPath "HSF.SC2Bank", ['s']), (tgtPath "HSF.SC2Bank", ['t'])]
        (bakPath "HSF.SC2Bank" 1) ['t']) (tgtPath "HSF.SC2Bank") ['s'])
      (bakPath "HSF.SC2Bank"
        (findBak [(srcPath "HSF.SC2Bank", ['s']), (tgtPath "HSF.SC2Bank", ['t'])]
          "HSF.SC2Bank")) = some ['t'] := by
  have h := copy_with_backup_correct
    [(srcPath "HSF.SC2Bank", ['s']), (tgtPath "HSF.SC2Bank", ['t'])]
    (writeFS (writeFS [(srcPath "HSF.SC2Bank", ['s']), (tgtPath "HSF.SC2Bank", ['t'])]
      (bakPath "HSF.SC2Bank" 1) ['t']) (tgtPath "HSF.SC2Bank") ['s'])
    "HSF.SC2Bank" 1 (by decide)
  exact ⟨h.1, (h.2 ['t'] (by decide)).2.2.2.2⟩

/-- C5: `resign_bank_file` is a total function that never propagates an
internal failure: whenever it reports `false` the filesystem — in
particular the copied file — is left byte-identical to what it was; and
when parsing succeeded but neither a (non-empty) old signature substring
occurs in the raw text nor the closing root tag `</Bank>` occurs, it
returns `false` with the state unchanged. -/
theorem resign_never_raises_and_unchanged (ps : ParseSig) (sf : SignFn)
    (fs : FS) (p : FPath) (user : String) :
    ((resign_bank_file ps sf fs p user).2 = false →
      (resign_bank_file ps sf fs p user).1 = fs) ∧
    (∀ content oldSig, readFS fs p = some content → ps content = some oldSig →
      (∀ s, oldSig = some s → (!s.isEmpty && pyContains s.data content) = false) →
      pyContains closingTag.data content = false →
      resign_bank_file ps sf fs p user = (fs, false)) := by
  refine ⟨resign_false_unchanged ps sf fs p user, ?_⟩
  intro content oldSig hr hp hold hclose
  have hins : insertBeforeClose (sf NEW_PUBLISHER_ID user (pathStem p) content)
      content = none := by
    unfold insertBeforeClose
    rw [if_neg (by simp [hclose])]
  have hnone : resignNewContent oldSig
      (sf NEW_PUBLISHER_ID user (pathStem p) content) content = none := by
    cases oldSig with
    | none => exact hins
    | some s =>
      have hg := hold s rfl
      simp only [resignNewContent]
      rw [if_neg (by simp [hg])]
      exact hins
  simp only [resign_bank_file, hr, hp, hnone]

/-- C5 witness: a parse collaborator that finds no signature, on a file
whose text has no closing tag — resigning returns `false` and leaves the
state unchanged. -/
theorem resign_never_raises_witness :
    resign_bank_file (fun _ => some none) sfConst
      [(tgtPath "HSF.SC2Bank", "abc".data)] (tgtPath "HSF.SC2Bank") "u" =
      ([(tgtPath "HSF.SC2Bank", "abc".data)], false) :=
  (resign_never_raises_and_unchanged (fun _ => some none) sfConst
    [(tgtPath "HSF.SC2Bank", "abc".data)] (tgtPath "HSF.SC2Bank") "u").2
    "abc".data none (by decide) rfl (fun s hs => by cases hs) (by decide)

/-- C4 (amended): the replacement policy of `resign_bank_file`.  If the
parsed old signature is non-empty and occurs verbatim in the raw text,
the new content is the old text with every (leftmost, non-overlapping)
occurrence of exactly that substring replaced by the new signature and
nothing else changed (the pieces between occurrences are preserved and
rejoining them with the old signature recovers the input).  Otherwise,
when the closing tag `</Bank>` occurs, the new signature element is
inserted immediately before every occurrence of `</Bank>` in the raw
text; in particular when `</Bank>` occurs exactly once — the well-formed
case — it is inserted immediately before the closing root tag and
nowhere else. -/
theorem resign_replacement_policy (oldSig : Option String) (newSig : String)
    (content : List Char) :
    (∀ s, oldSig = some s → (!s.isEmpty && pyContains s.data content) = true →
      resignNewContent oldSig newSig content =
        some (List.intercalate newSig.data (pySplit s.data content)) ∧
      List.intercalate s.data (pySplit s.data content) = content ∧
      2 ≤ (pySplit s.data content).length) ∧
    ((∀ s, oldSig = some s → (!s.isEmpty && pyContains s.data content) = false) →
      pyContains closingTag.data content = true →
      resignNewContent oldSig newSig content =
        some (List.intercalate (signatureTag newSig).data
          (pySplit closingTag.data content)) ∧
      List.intercalate closingTag.data (pySplit closingTag.data content) = content ∧
      2 ≤ (pySplit closingTag.data content).length ∧
      (countOcc closingTag.data content = 1 → ∃ p0 p1,
        content = p0 ++ closingTag.data ++ p1 ∧
        resignNewContent oldSig newSig content =
          some (p0 ++ (signatureIns newSig).data ++ closingTag.data ++ p1))) := by
  constructor
  · intro s hsome hguard
    subst hsome
    have hne : s.data ≠ [] := by
      apply data_ne_nil_of_not_isEmpty
      simp only [Bool.and_eq_true] at hguard
      simpa using hguard.1
    refine ⟨?_, intercalate_pySplit s.data content, ?_⟩
    · simp only [resignNewContent]
      rw [if_pos hguard, pyReplace_eq_intercalate]
    · rw [pySplit_length_iff s.data content hne]
      simp only [Bool.and_eq_true] at hguard
      exact hguard.2
  · intro hold hclose
    have hcne : closingTag.data ≠ [] := by decide
    have hins : insertBeforeClose newSig content =
        some (pyReplace closingTag.data (signatureTag newSig).data content) := by
      unfold insertBeforeClose
      rw [if_pos hclose]
    have hres : resignNewContent oldSig newSig content =
        some (pyReplace closingTag.data (signatureTag newSig).data content) := by
      cases oldSig with
      | none => exact hins
      | some s =>
        have hg := hold s rfl
        simp only [resignNewContent]
        rw [if_neg (by simp [hg])]
        exact hins
    have hlen2 : 2 ≤ (pySplit closingTag.data content).length :=
      (pySplit_length_iff closingTag.data content hcne).mpr hclose
    refine ⟨by rw [hres, pyReplace_eq_intercalate],
      intercalate_pySplit closingTag.data content, hlen2, ?_⟩
    intro hone
    have hlen : (pySplit closingTag.data content).length = 2 := by
      unfold countOcc at hone
      omega
    obtain ⟨p0, p1, hpair⟩ := List.length_eq_two.mp hlen
    obtain ⟨hcontent, hrepl⟩ := pySplit_pair closingTag.data content p0 p1 hpair
    refine ⟨p0, p1, hcontent, ?_⟩
    rw [hres, pyReplace_eq_intercalate, hpair, intercalate_cons_cons,
      intercalate_singleton]
    have htag : (signatureTag newSig).data =
        (signatureIns newSig).data ++ closingTag.data := by
      show ((signatureIns newSig) ++ closingTag).data =
        (signatureIns newSig).data ++ closingTag.data
      exact String.data_append _ _
    rw [htag]
    simp [List.append_assoc]

/-- C4 counterexample: a parseable bank text in which the byte sequence
`</Bank>` occurs twice (once inside a comment, once as the real closing
root tag) and no old signature is found.  The code inserts the new
signature element before both occurrences — the inserted element appears
twice in the output — contradicting the claim that it is inserted
immediately before the file's closing root-element tag and nowhere
else. -/
theorem resign_insertion_duplicated :
    (resignNewContent none "NEW" "<Bank><!--</Bank>--></Bank>".data).isSome = true ∧
    countOcc "<Signature value=\"NEW\"/>".data
      ((resignNewContent none "NEW" "<Bank><!--</Bank>--></Bank>".data).getD [])
      = 2 := by
  decide

/-- C4 witness: concrete first-branch instantiation — an old signature
`OLD` found in the text `aaOLDbb` is replaced in place by `NEW`. -/
theorem resign_replacement_policy_witness :
    resignNewContent (some "OLD") "NEW" "aaOLDbb".data = some "aaNEWbb".data := by
  have h := (resign_replacement_policy (some "OLD") "NEW" "aaOLDbb".data).1
    "OLD" rfl (by decide)
  rw [h.1]
  decide
